import Mathlib

set_option autoImplicit false
set_option maxRecDepth 40000

namespace AutoAnna

/-! Shallow embedding of `src/csv_processing.py` of the auto-anna-dashboard
repository, together with models (from the specification) of the `CallDetail`
and `Files` classes that the module imports.  Strings are Lean `String`s;
parsing works on their character lists. -/

/-- The whitespace characters stripped by Python `int()` and `str.strip()`. -/
def isPySpace (c : Char) : Bool :=
  c = ' ' || c = '\t' || c = '\n' || c = '\r' || c = '\x0b' || c = '\x0c'

/-- Strip leading and trailing whitespace from a character list. -/
def stripList (cs : List Char) : List Char :=
  ((cs.dropWhile isPySpace).reverse.dropWhile isPySpace).reverse

/-- Model of Python `text.split(":")`: cut the character list at every colon,
keeping empty pieces, so the result always has one more piece than there are
colons. -/
def splitColon : List Char → List (List Char)
  | [] => [[]]
  | c :: cs =>
    if c = ':' then [] :: splitColon cs
    else
      match splitColon cs with
      | [] => [[c]]
      | p :: ps => (c :: p) :: ps

/-- Continuation of a digit run for `pyInt`: consumes further decimal digits,
with a single underscore permitted between two digits (PEP 515); `none` on
anything else. -/
def digitsValAux (acc : Nat) : List Char → Option Nat
  | [] => some acc
  | '_' :: c :: cs =>
    if c.isDigit then digitsValAux (10 * acc + (c.toNat - '0'.toNat)) cs else none
  | '_' :: [] => none
  | c :: cs => if c.isDigit then digitsValAux (10 * acc + (c.toNat - '0'.toNat)) cs else none

/-- A numeral body for `pyInt`: a leading decimal digit followed by a digit
run; `none` when empty or starting with a non-digit (also an underscore). -/
def pyIntDigits : List Char → Option Nat
  | c :: cs => if c.isDigit then digitsValAux (c.toNat - '0'.toNat) cs else none
  | [] => none

/-- Model of Python `int(text)`: optional surrounding whitespace, an optional
sign, then decimal digits with single underscores permitted between digits
(PEP 515); `none` models a raised `ValueError`.  ASCII digits and whitespace
only — Unicode digit variants are not modelled. -/
def pyInt (cs : List Char) : Option Int :=
  match stripList cs with
  | '-' :: rest => (pyIntDigits rest).map (fun v => -(v : Int))
  | '+' :: rest => (pyIntDigits rest).map (fun v => (v : Int))
  | rest => (pyIntDigits rest).map (fun v => (v : Int))

/-- Fuel-driven binary logarithm: with fuel at least `n`, the greatest `l`
with `2 ^ l ≤ n` (and `0` for `n ≤ 1`).  Structural recursion on the fuel so
that the kernel can evaluate it on large literals. -/
def log2F : Nat → Nat → Nat
  | 0, _ => 0
  | fuel + 1, n => if n ≤ 1 then 0 else log2F fuel (n / 2) + 1

/-- `⌊log2 n⌋` for `n ≥ 1`. -/
def natLog2 (n : Nat) : Nat := log2F n n

/-- Round the rational `num / den` to the nearest integer, ties to even. -/
def rhe (num den : Nat) : Nat :=
  let m0 := num / den
  let r := num % den
  if den < 2 * r then m0 + 1
  else if 2 * r < den then m0
  else if m0 % 2 = 0 then m0 else m0 + 1

/-- The binary exponent `⌊log2 (a / 60)⌋` of the quotient `a / 60` for
`a ≥ 1`: with `L = ⌊log2 a⌋` the quotient lies in `[2^(L-6), 2^(L-4))`, and
`a / 60 ≥ 2^(L-5)` iff `15 * 2^L ≤ 8 * a`. -/
def flExpo (a : Nat) : Int :=
  if 15 * 2 ^ natLog2 a ≤ 8 * a then (natLog2 a : Int) - 5 else (natLog2 a : Int) - 6

/-- The IEEE binary64 rounding (round to nearest, ties to even) of `a / 60`
for `a ≥ 1`, as a mantissa/exponent pair: the rounded value is
`mant * 2 ^ (expo - 52)`.  Quotients of this shape are at least `1 / 60` in
magnitude, so the subnormal range never arises. -/
def fl60 (a : Nat) : Nat × Int :=
  if flExpo a ≤ 52 then (rhe (a * 2 ^ (52 - flExpo a).toNat) 60, flExpo a)
  else (rhe a (60 * 2 ^ (flExpo a - 52).toNat), flExpo a)

/-- The exact rational value of the rounded float `a / 60`. -/
def flVal60 (a : Nat) : ℚ := ((fl60 a).1 : ℚ) * (2 : ℚ) ^ ((fl60 a).2 - 52)

/-- Model of `math.ceil(x / 60)` as the source computes it: Python float true
division of the integer `x` by 60 — correctly rounded to binary64, raising
`OverflowError` when the rounded magnitude reaches `2 ^ 1024` — followed by
`math.ceil`; `none` models the raised `OverflowError`. -/
def pyCeilDiv60 (s : Int) : Option Int :=
  if s = 0 then some 0
  else
    let m : Nat := (fl60 s.natAbs).1
    let e : Int := (fl60 s.natAbs).2
    if 52 ≤ e ∧ 2 ^ 1024 ≤ m * 2 ^ (e - 52).toNat then none
    else if 0 < s then
      some (if 52 ≤ e then (m : Int) * 2 ^ (e - 52).toNat
            else -(-(m : Int) / 2 ^ (52 - e).toNat))
    else
      some (-(if 52 ≤ e then (m : Int) * 2 ^ (e - 52).toNat
              else (m : Int) / 2 ^ (52 - e).toNat))

/-- Model of `h, m, s = map(int, call_duration.split(":"))`: succeeds exactly
when the split yields three pieces and each parses as a Python integer; `none`
models the raised `ValueError` from wrong arity or a non-numeric piece. -/
def parseHMS (cs : List Char) : Option (Int × Int × Int) :=
  match splitColon cs with
  | [a, b, c] =>
    match pyInt a, pyInt b, pyInt c with
    | some h, some m, some s => some (h, m, s)
    | _, _, _ => none
  | _ => none

/-- Embedding of `round_up_duration_minutes` (src/csv_processing.py lines
58-70): on `H:M:S` input return `h*60 + m + math.ceil(s/60)`; on raw-seconds
input return `math.ceil(n/60)`; the division is Python float true division,
so its `OverflowError` — like any parse failure — is caught by the `except`
and the function returns `0`. -/
def round_up_duration_minutes (call_duration : String) : Int :=
  let cs := call_duration.toList
  if ':' ∈ cs then
    match parseHMS cs with
    | some (h, m, s) =>
      match pyCeilDiv60 s with
      | some c => h * 60 + m + c
      | none => 0
    | none => 0
  else
    match pyInt cs with
    | some n =>
      match pyCeilDiv60 n with
      | some c => c
      | none => 0
    | none => 0

/-- Embedding of `round_up_duration_seconds` (src/csv_processing.py lines
73-85): on `H:M:S` input return `h*3600 + m*60 + s`; on raw-seconds input
return `n`; on any parse failure return `0`. -/
def round_up_duration_seconds (call_duration : String) : Int :=
  let cs := call_duration.toList
  if ':' ∈ cs then
    match parseHMS cs with
    | some (h, m, s) => h * 3600 + m * 60 + s
    | none => 0
  else
    match pyInt cs with
    | some n => n
    | none => 0

/-- The two recognized rate types. -/
inductive RateType where
  | per_minute
  | per_second
deriving DecidableEq

/-- Modelled from the spec: one special-number override of the rate
configuration (phone number, rate, rate type, chargeable call types), §3. -/
structure SpecialNumber where
  number : String
  rate : ℚ
  rate_type : RateType
  chargeable_call_types : List String
deriving DecidableEq

/-- Modelled from the spec: the `Files` rate configuration
(`src/FileConfig.py`, imported by `csv_processing.py` but absent from the
sources): client id, carrier, default rate tier, up to two special-number
overrides and one S2C override, §3. -/
structure Files where
  client : String
  carrier : String
  rate : ℚ
  rate_type : RateType
  chargeable_call_types : List String
  number1 : Option SpecialNumber
  number2 : Option SpecialNumber
  s2c : Option SpecialNumber
deriving DecidableEq

/-- A resolved rate tier: rate, rate type and chargeable-call-type set. -/
structure Tier where
  rate : ℚ
  rate_type : RateType
  chargeable_call_types : List String
deriving DecidableEq

def SpecialNumber.tier (sn : SpecialNumber) : Tier :=
  ⟨sn.rate, sn.rate_type, sn.chargeable_call_types⟩

def Files.defaultTier (c : Files) : Tier :=
  ⟨c.rate, c.rate_type, c.chargeable_call_types⟩

/-- Python `str.strip()`: remove leading and trailing whitespace. -/
def pyStrip (s : String) : String :=
  ⟨stripList s.toList⟩

/-- Modelled from the spec: a configured special number matches a call when it
equals the from- or the to-number, exact string comparison after trimming
(§4.2). -/
def numberMatches (n call_from call_to : String) : Bool :=
  pyStrip n = pyStrip call_from || pyStrip n = pyStrip call_to

/-- Whether an optional override is configured and matches the call. -/
def optMatches (o : Option SpecialNumber) (call_from call_to : String) : Bool :=
  match o with
  | none => false
  | some sn => numberMatches sn.number call_from call_to

/-- S2C stage of the resolver: try the S2C override, else the default tier. -/
def resolveS2C (c : Files) (call_from call_to : String) : Tier :=
  match c.s2c with
  | some sn => if numberMatches sn.number call_from call_to then sn.tier else c.defaultTier
  | none => c.defaultTier

/-- Number-2 stage of the resolver: try the second special number, else fall
through to the S2C stage. -/
def resolveNumber2 (c : Files) (call_from call_to : String) : Tier :=
  match c.number2 with
  | some sn => if numberMatches sn.number call_from call_to then sn.tier else resolveS2C c call_from call_to
  | none => resolveS2C c call_from call_to

/-- Modelled from the spec: the RateResolver (§4.2) with the total precedence
order number1 > number2 > s2c > default; first match wins. -/
def resolveTier (c : Files) (call_from call_to : String) : Tier :=
  match c.number1 with
  | some sn => if numberMatches sn.number call_from call_to then sn.tier else resolveNumber2 c call_from call_to
  | none => resolveNumber2 c call_from call_to

/-- Modelled from the spec: the `CallDetail` rated call record
(`src/CallDetail.py`, imported by `csv_processing.py` but absent from the
sources): the raw row fields plus client, carrier, resolved rate and rate
type, chargeable flag, charge and the two normalized durations (§3). -/
structure CallDetail where
  client : String
  sequence_id : String
  user_name : String
  call_from : String
  call_to : String
  call_type : String
  dial_start_at : String
  dial_answered_at : String
  dial_end_at : String
  ringing_time : String
  call_duration : String
  call_memo : String
  carrier : String
  rate : ℚ
  rate_type : RateType
  chargeable : Bool
  charge : ℚ
  rounded_minutes : Int
  exact_seconds : Int
deriving DecidableEq

/-- Modelled from the spec: construction of a `CallDetail` rates the call
(RatingEngine, §4.3): resolve the tier, normalize the duration, mark the call
chargeable iff its type is in the tier's chargeable set, and charge
`rate * roundedMinutes` (per-minute) or `rate * exactSeconds` (per-second),
or `0` when not chargeable. -/
def mkCallDetail (config : Files)
    (sequence_id user_name call_from call_to call_type dial_start_at
     dial_answered_at dial_end_at ringing_time call_duration call_memo : String) :
    CallDetail :=
  let tier := resolveTier config call_from call_to
  let mins := round_up_duration_minutes call_duration
  let secs := round_up_duration_seconds call_duration
  let isChargeable := tier.chargeable_call_types.contains call_type
  let charge : ℚ :=
    if isChargeable then
      match tier.rate_type with
      | RateType.per_minute => tier.rate * (mins : ℚ)
      | RateType.per_second => tier.rate * (secs : ℚ)
    else 0
  { client := config.client, sequence_id := sequence_id, user_name := user_name,
    call_from := call_from, call_to := call_to, call_type := call_type,
    dial_start_at := dial_start_at, dial_answered_at := dial_answered_at,
    dial_end_at := dial_end_at, ringing_time := ringing_time,
    call_duration := call_duration, call_memo := call_memo,
    carrier := config.carrier, rate := tier.rate, rate_type := tier.rate_type,
    chargeable := isChargeable, charge := charge,
    rounded_minutes := mins, exact_seconds := secs }

/-- Modelled from the spec: `CallDetail.hash_key` digests the fields that
identify the call event — sequence id, call-from, call-to, call type,
dial-start, dial-end — and excludes the annotation fields user name and call
memo (§4.4); modelled as their separator-joined concatenation. -/
def CallDetail.hash_key (d : CallDetail) : String :=
  d.sequence_id ++ "|" ++ d.call_from ++ "|" ++ d.call_to ++ "|" ++ d.call_type
    ++ "|" ++ d.dial_start_at ++ "|" ++ d.dial_end_at

/-- One parsed CSV row: column name to cell text; a column absent from the
file is simply missing from the list. -/
abbrev Row := List (String × String)

/-- pandas `row.get(column, "")`: the cell text, or `""` when the column is
missing. -/
def rowGet (r : Row) (col : String) : String :=
  match r.find? (fun p => p.1 == col) with
  | some p => p.2
  | none => ""

/-- The `CallDetail(...)` construction of `process_dashboard_csv`
(src/csv_processing.py lines 29-44), reading each field from the row under
the export's column names. -/
def buildCallDetail (config : Files) (row : Row) : CallDetail :=
  mkCallDetail config (rowGet row "Sequence ID") (rowGet row "User name")
    (rowGet row "Call from") (rowGet row "Call to") (rowGet row "Call type")
    (rowGet row "Dial begin time") (rowGet row "Call begin time")
    (rowGet row "Call end time") (rowGet row "Ringing time")
    (rowGet row "Call duration") (rowGet row "Call memo")

/-- The call store: a Python dict as an insertion-ordered association list
from hash key to `CallDetail`. -/
abbrev Store := List (String × CallDetail)

/-- Dict lookup: the value at the first entry with the given key. -/
def lookupKey (key : String) : Store → Option CallDetail
  | [] => none
  | p :: rest => if p.1 = key then some p.2 else lookupKey key rest

/-- Python `key in call_details`. -/
def containsKey (key : String) (s : Store) : Bool :=
  (lookupKey key s).isSome

/-- Replace the value at the first entry with the given key. -/
def updateFirst (key : String) (f : CallDetail → CallDetail) : Store → Store
  | [] => []
  | p :: rest => if p.1 = key then (p.1, f p.2) :: rest else p :: updateFirst key f rest

/-- One iteration of the row loop of `process_dashboard_csv`
(src/csv_processing.py lines 28-53): build the `CallDetail`; if its hash key
is already present overwrite only `user_name` and `call_memo` of the existing
entry from the row, otherwise insert the new record at the end. -/
def processRow (config : Files) (call_details : Store) (row : Row) : Store :=
  let call_detail := buildCallDetail config row
  let key := call_detail.hash_key
  if containsKey key call_details then
    updateFirst key
      (fun existing =>
        { existing with user_name := rowGet row "User name", call_memo := rowGet row "Call memo" })
      call_details
  else
    call_details ++ [(key, call_detail)]

/-- Embedding of `process_dashboard_csv` (src/csv_processing.py lines 8-55):
fold the row loop over the parsed rows, starting from the existing call
details (the Python default is the empty dict). -/
def process_dashboard_csv (config : Files) (rows : List Row) (call_details : Store) : Store :=
  rows.foldl (processRow config) call_details

/-- Render a rate type the way the configuration names it. -/
def rateTypeStr : RateType → String
  | RateType.per_minute => "per_minute"
  | RateType.per_second => "per_second"

/-- Modelled from the spec: `CallDetail.to_dict` flattens every field of the
record into column-name/value pairs under the export column names (§3, §6). -/
def CallDetail.to_dict (d : CallDetail) : List (String × String) :=
  [("Client", d.client), ("Sequence ID", d.sequence_id), ("User name", d.user_name),
   ("Call from", d.call_from), ("Call to", d.call_to), ("Call type", d.call_type),
   ("Dial begin time", d.dial_start_at), ("Call begin time", d.dial_answered_at),
   ("Call end time", d.dial_end_at), ("Ringing time", d.ringing_time),
   ("Call duration", d.call_duration), ("Call memo", d.call_memo),
   ("Carrier", d.carrier), ("Rate", toString d.rate.num ++ "/" ++ toString d.rate.den),
   ("Rate type", rateTypeStr d.rate_type), ("Chargeable", toString d.chargeable),
   ("Charge", toString d.charge.num ++ "/" ++ toString d.charge.den),
   ("Rounded minutes", toString d.rounded_minutes), ("Exact seconds", toString d.exact_seconds)]

/-- Python dict lookup `call_dict[key]` on a string-valued dict whose key is
always present (absent keys read as `""`). -/
def dictGet (l : List (String × String)) (k : String) : String :=
  match l.find? (fun p => p.1 == k) with
  | some p => p.2
  | none => ""

/-- The output row `save_merged_csv` builds for one stored record: its
flattened dict plus the two rounded-duration columns computed from the
record's `Call duration` cell (src/csv_processing.py lines 96-98). -/
def outputRow (d : CallDetail) : List (String × String) :=
  d.to_dict ++
    [("Round up duration (minutes)",
        toString (round_up_duration_minutes (dictGet d.to_dict "Call duration"))),
     ("Round up duration (seconds)",
        toString (round_up_duration_seconds (dictGet d.to_dict "Call duration")))]

/-- Embedding of `save_merged_csv` (src/csv_processing.py lines 88-102): loop
over the stored records in order, appending one output row per record to the
list that becomes the exported table. -/
def save_merged_csv (call_details : Store) : List (List (String × String)) :=
  call_details.foldl (fun acc p => acc ++ [outputRow p.2]) []

/-! Dictionary lemmas for the association-list store. -/

theorem length_updateFirst (key : String) (f : CallDetail → CallDetail) (s : Store) :
    (updateFirst key f s).length = s.length := by
  induction s with
  | nil => rfl
  | cons p rest ih =>
    rw [updateFirst]
    by_cases h : p.1 = key
    · rw [if_pos h]; rfl
    · rw [if_neg h, List.length_cons, List.length_cons, ih]

theorem lookupKey_updateFirst_self (key : String) (f : CallDetail → CallDetail) (s : Store) :
    lookupKey key (updateFirst key f s) = (lookupKey key s).map f := by
  induction s with
  | nil => rfl
  | cons p rest ih =>
    rw [updateFirst]
    by_cases h : p.1 = key
    · rw [if_pos h, lookupKey, lookupKey, if_pos h, if_pos h]; rfl
    · rw [if_neg h, lookupKey, lookupKey, if_neg h, if_neg h, ih]

theorem lookupKey_updateFirst_ne (key k : String) (f : CallDetail → CallDetail) (s : Store)
    (h : k ≠ key) : lookupKey k (updateFirst key f s) = lookupKey k s := by
  induction s with
  | nil => rfl
  | cons p rest ih =>
    rw [updateFirst]
    by_cases hp : p.1 = key
    · have hk : ¬p.1 = k := by rw [hp]; exact fun hh => h hh.symm
      rw [if_pos hp, lookupKey, lookupKey, if_neg hk, if_neg hk]
    · rw [if_neg hp, lookupKey, lookupKey, ih]

theorem containsKey_updateFirst (key k : String) (f : CallDetail → CallDetail) (s : Store) :
    containsKey k (updateFirst key f s) = containsKey k s := by
  by_cases h : k = key
  · subst h
    rw [containsKey, containsKey, lookupKey_updateFirst_self]
    cases lookupKey k s <;> rfl
  · rw [containsKey, containsKey, lookupKey_updateFirst_ne key k f s h]

theorem updateFirst_updateFirst (key : String) (f : CallDetail → CallDetail)
    (hf : ∀ x, f (f x) = f x) (s : Store) :
    updateFirst key f (updateFirst key f s) = updateFirst key f s := by
  induction s with
  | nil => rfl
  | cons p rest ih =>
    by_cases hp : p.1 = key
    · simp only [updateFirst, hp, if_pos, hf]
    · simp only [updateFirst, if_neg hp, ih]

theorem containsKey_append_self (key : String) (s : Store) (v : CallDetail) :
    containsKey key (s ++ [(key, v)]) = true := by
  induction s with
  | nil => rw [List.nil_append, containsKey, lookupKey, if_pos rfl]; rfl
  | cons p rest ih =>
    rw [List.cons_append, containsKey, lookupKey]
    by_cases hp : p.1 = key
    · rw [if_pos hp]; rfl
    · rw [if_neg hp]; rw [containsKey] at ih; exact ih

theorem lookupKey_append_self (key : String) (s : Store) (v : CallDetail)
    (h : containsKey key s = false) : lookupKey key (s ++ [(key, v)]) = some v := by
  induction s with
  | nil => rw [List.nil_append, lookupKey, if_pos rfl]
  | cons p rest ih =>
    by_cases hp : p.1 = key
    · exfalso
      rw [containsKey, lookupKey, if_pos hp] at h
      simp at h
    · rw [List.cons_append, lookupKey, if_neg hp]
      apply ih
      rw [containsKey, lookupKey, if_neg hp] at h
      exact h

theorem updateFirst_append_notin (key : String) (f : CallDetail → CallDetail) (s : Store)
    (v : CallDetail) (h : containsKey key s = false) :
    updateFirst key f (s ++ [(key, v)]) = s ++ [(key, f v)] := by
  induction s with
  | nil => rw [List.nil_append, List.nil_append, updateFirst, if_pos rfl]
  | cons p rest ih =>
    by_cases hp : p.1 = key
    · exfalso
      rw [containsKey, lookupKey, if_pos hp] at h
      simp at h
    · rw [List.cons_append, updateFirst, if_neg hp, List.cons_append]
      have hrest : containsKey key rest = false := by
        rw [containsKey, lookupKey, if_neg hp] at h
        exact h
      rw [ih hrest]

theorem lookupKey_mem (key : String) (s : Store) (v : CallDetail)
    (h : lookupKey key s = some v) : (key, v) ∈ s := by
  induction s with
  | nil => cases h
  | cons p rest ih =>
    rw [lookupKey] at h
    by_cases hp : p.1 = key
    · rw [if_pos hp] at h
      have hv : p.2 = v := by injection h
      exact List.mem_cons.mpr (Or.inl (by rw [← hp, ← hv]))
    · rw [if_neg hp] at h
      exact List.mem_cons.mpr (Or.inr (ih h))

theorem containsKey_processRow (config : Files) (s : Store) (row : Row) :
    containsKey (buildCallDetail config row).hash_key (processRow config s row) = true := by
  simp only [processRow]
  by_cases hc : containsKey (buildCallDetail config row).hash_key s = true
  · rw [if_pos hc, containsKey_updateFirst]
    exact hc
  · rw [if_neg hc]
    exact containsKey_append_self _ _ _

theorem foldl_append_outputRow (l : Store) (acc : List (List (String × String))) :
    l.foldl (fun a p => a ++ [outputRow p.2]) acc = acc ++ l.map (fun p => outputRow p.2) := by
  induction l generalizing acc with
  | nil => simp
  | cons p rest ih =>
    rw [List.foldl_cons, List.map_cons, ih]
    simp

theorem save_merged_csv_eq_map (s : Store) :
    save_merged_csv s = s.map (fun p => outputRow p.2) := by
  rw [save_merged_csv, foldl_append_outputRow, List.nil_append]

/-! Resolver stage lemmas. -/

theorem resolveTier_hit1 (c : Files) (cf cto : String) (sn : SpecialNumber)
    (hsn : c.number1 = some sn) (hm : numberMatches sn.number cf cto = true) :
    resolveTier c cf cto = sn.tier := by
  simp only [resolveTier, hsn]
  rw [if_pos hm]

theorem resolveTier_skip1 (c : Files) (cf cto : String)
    (h : optMatches c.number1 cf cto = false) :
    resolveTier c cf cto = resolveNumber2 c cf cto := by
  cases hn : c.number1 with
  | none => simp only [resolveTier, hn]
  | some sn =>
    rw [hn] at h
    simp only [optMatches] at h
    simp only [resolveTier, hn]
    rw [if_neg (by rw [h]; exact Bool.false_ne_true)]

theorem resolveNumber2_hit (c : Files) (cf cto : String) (sn : SpecialNumber)
    (hsn : c.number2 = some sn) (hm : numberMatches sn.number cf cto = true) :
    resolveNumber2 c cf cto = sn.tier := by
  simp only [resolveNumber2, hsn]
  rw [if_pos hm]

theorem resolveNumber2_skip (c : Files) (cf cto : String)
    (h : optMatches c.number2 cf cto = false) :
    resolveNumber2 c cf cto = resolveS2C c cf cto := by
  cases hn : c.number2 with
  | none => simp only [resolveNumber2, hn]
  | some sn =>
    rw [hn] at h
    simp only [optMatches] at h
    simp only [resolveNumber2, hn]
    rw [if_neg (by rw [h]; exact Bool.false_ne_true)]

theorem resolveS2C_hit (c : Files) (cf cto : String) (sn : SpecialNumber)
    (hsn : c.s2c = some sn) (hm : numberMatches sn.number cf cto = true) :
    resolveS2C c cf cto = sn.tier := by
  simp only [resolveS2C, hsn]
  rw [if_pos hm]

theorem resolveS2C_skip (c : Files) (cf cto : String)
    (h : optMatches c.s2c cf cto = false) :
    resolveS2C c cf cto = c.defaultTier := by
  cases hn : c.s2c with
  | none => simp only [resolveS2C, hn]
  | some sn =>
    rw [hn] at h
    simp only [optMatches] at h
    simp only [resolveS2C, hn]
    rw [if_neg (by rw [h]; exact Bool.false_ne_true)]

/-! Sample data for the concrete witnesses. -/

/-- A per-minute configuration with only the default tier. -/
def cfgA : Files :=
  { client := "acme", carrier := "Indosat", rate := 10, rate_type := RateType.per_minute,
    chargeable_call_types := ["outbound call", "predictive_dial"],
    number1 := none, number2 := none, s2c := none }

/-- The same configuration billed per second. -/
def cfgS : Files :=
  { cfgA with rate_type := RateType.per_second }

/-- A sample export row. -/
def rowA : Row :=
  [("Sequence ID", "7"), ("User name", "alice"), ("Call from", "0811"),
   ("Call to", "0822"), ("Call type", "outbound call"), ("Dial begin time", "t0"),
   ("Call begin time", "t1"), ("Call end time", "t2"), ("Ringing time", "0:00:05"),
   ("Call duration", "0:01:30"), ("Call memo", "first memo")]

/-- The rated record the sample row produces under `cfgA`. -/
def detailA : CallDetail := buildCallDetail cfgA rowA

/-- A stale store entry under the same hash key with different annotations and
a different charge. -/
def oldA : CallDetail := { detailA with user_name := "bob", call_memo := "stale", charge := 999 }

def storeA : Store := [(detailA.hash_key, oldA)]

/-- The number1 override of the precedence witness. -/
def snP : SpecialNumber :=
  { number := "0811", rate := 5, rate_type := RateType.per_minute, chargeable_call_types := [] }

/-- The S2C override of the precedence witness: same number as `snP`. -/
def snS : SpecialNumber :=
  { number := "0811", rate := 7, rate_type := RateType.per_second, chargeable_call_types := [] }

/-- A configuration whose number1 and S2C overrides share the same number, to
exhibit number1 dominance. -/
def cfgP : Files :=
  { cfgA with number1 := some snP, s2c := some snS }

/-- A high-rate configuration for the non-chargeable witness. -/
def cfgW : Files :=
  { cfgA with rate := 720 }

/-- A row whose call type is not in any chargeable set. -/
def rowW : Row :=
  [("Sequence ID", "9"), ("User name", "carol"), ("Call from", "0833"),
   ("Call to", "0844"), ("Call type", "weird type"), ("Call duration", "10:00"),
   ("Call memo", "m")]

/-! Correctness of the float-division model in its exact regime: for
`|s| < 60 * 2^48` the quotient `s / 60` is below `2^48`, the rounding error
of the binary64 division is at most `2^-6 = 1/64 < 1/60`, and the ceiling and
floor of the rounded quotient agree with the exact ones. -/

theorem log2F_spec : ∀ fuel n : Nat, 1 ≤ n → n ≤ fuel →
    2 ^ log2F fuel n ≤ n ∧ n < 2 ^ (log2F fuel n + 1) := by
  intro fuel
  induction fuel with
  | zero => intro n h1 h2; omega
  | succ fuel ih =>
    intro n h1 h2
    rw [log2F]
    by_cases hn : n ≤ 1
    · rw [if_pos hn]
      have hone : n = 1 := by omega
      subst hone
      norm_num
    · rw [if_neg hn]
      have h1' : 1 ≤ n / 2 := by omega
      have h2' : n / 2 ≤ fuel := by omega
      obtain ⟨l, u⟩ := ih (n / 2) h1' h2'
      have e1 : 2 ^ (log2F fuel (n / 2) + 1) = 2 * 2 ^ log2F fuel (n / 2) := by ring
      have e2 : 2 ^ (log2F fuel (n / 2) + 1 + 1) = 2 * 2 ^ (log2F fuel (n / 2) + 1) := by ring
      omega

theorem natLog2_spec (n : Nat) (h : 1 ≤ n) :
    2 ^ natLog2 n ≤ n ∧ n < 2 ^ (natLog2 n + 1) :=
  log2F_spec n n h le_rfl

theorem flExpo_le (a : Nat) (ha : 1 ≤ a) (hb : a < 60 * 2 ^ 48) : flExpo a ≤ 47 := by
  obtain ⟨hl, _⟩ := natLog2_spec a ha
  have hL : natLog2 a ≤ 53 := by
    by_contra hgt
    have h54 : 2 ^ 54 ≤ 2 ^ natLog2 a := Nat.pow_le_pow_right (by norm_num) (by omega)
    have hlt : (60 : Nat) * 2 ^ 48 ≤ 2 ^ 54 := by norm_num
    omega
  rw [flExpo]
  by_cases ht : 15 * 2 ^ natLog2 a ≤ 8 * a
  · rw [if_pos ht]
    have hL52 : natLog2 a ≤ 52 := by
      by_contra hgt
      have h53 : natLog2 a = 53 := by omega
      rw [h53] at ht
      have hc : (15 : Nat) * 2 ^ 53 = 8 * (60 * 2 ^ 48) := by norm_num
      omega
    omega
  · rw [if_neg ht]
    omega

theorem fl60_snd (a : Nat) : (fl60 a).2 = flExpo a := by
  rw [fl60]
  split <;> rfl

theorem fl60_fst (a : Nat) (he : flExpo a ≤ 52) :
    (fl60 a).1 = rhe (a * 2 ^ (52 - flExpo a).toNat) 60 := by
  rw [fl60, if_pos he]

theorem rhe_exact (num den : Nat) (hden : 0 < den) (h : den ∣ num) :
    rhe num den = num / den := by
  have hr : num % den = 0 := by
    obtain ⟨c, rfl⟩ := h
    exact Nat.mul_mod_right den c
  simp only [rhe]
  rw [hr]
  have h2 : ¬(den < 2 * 0) := by omega
  have h3 : 2 * 0 < den := by omega
  rw [if_neg h2, if_pos h3]

theorem rhe_err (num den : Nat) (hden : 0 < den) :
    |(rhe num den : ℚ) - (num : ℚ) / (den : ℚ)| ≤ 1 / 2 := by
  have hdQ : (0 : ℚ) < (den : ℚ) := by exact_mod_cast hden
  have hxn : ((num : ℚ)) = (den : ℚ) * ((num / den : Nat) : ℚ) + ((num % den : Nat) : ℚ) := by
    exact_mod_cast (Nat.div_add_mod num den).symm
  have hx : (num : ℚ) / den = ((num / den : Nat) : ℚ) + ((num % den : Nat) : ℚ) / den := by
    rw [hxn]
    field_simp
    ring
  have hrlt : ((num % den : Nat) : ℚ) < den := by exact_mod_cast Nat.mod_lt num hden
  have hr0 : (0 : ℚ) ≤ ((num % den : Nat) : ℚ) := by positivity
  simp only [rhe]
  by_cases h1 : den < 2 * (num % den)
  · rw [if_pos h1]
    have h1' : (den : ℚ) < 2 * ((num % den : Nat) : ℚ) := by exact_mod_cast h1
    have hgt : 1 / 2 < ((num % den : Nat) : ℚ) / den := by
      rw [div_lt_div_iff₀ (by norm_num) hdQ]
      linarith
    have hlt1 : ((num % den : Nat) : ℚ) / den < 1 := by
      rw [div_lt_one hdQ]
      linarith
    rw [hx, abs_le]
    push_cast
    constructor <;> linarith
  · rw [if_neg h1]
    by_cases h2 : 2 * (num % den) < den
    · rw [if_pos h2]
      have h2' : 2 * ((num % den : Nat) : ℚ) < den := by exact_mod_cast h2
      have hlt : ((num % den : Nat) : ℚ) / den < 1 / 2 := by
        rw [div_lt_div_iff₀ hdQ (by norm_num)]
        linarith
      have hge : (0 : ℚ) ≤ ((num % den : Nat) : ℚ) / den := by positivity
      rw [hx, abs_le]
      constructor <;> linarith

    · rw [if_neg h2]
      have heqn : (num % den) * 2 = 1 * den := by omega
      have heq' : ((num % den : Nat) : ℚ) / den = 1 / 2 := by
        rw [div_eq_div_iff (ne_of_gt hdQ) (by norm_num)]
        exact_mod_cast heqn
      by_cases hpar : num / den % 2 = 0
      · rw [if_pos hpar, hx, abs_le]
        constructor <;> linarith
      · rw [if_neg hpar, hx, abs_le]
        push_cast
        constructor <;> linarith

theorem flVal60_le52 (a : Nat) (he : flExpo a ≤ 52) :
    flVal60 a = ((fl60 a).1 : ℚ) / (2 : ℚ) ^ (52 - flExpo a).toNat := by
  have hz : ((52 - flExpo a).toNat : Int) = 52 - flExpo a := Int.toNat_of_nonneg (by omega)
  have hneg : flExpo a - 52 = -(((52 - flExpo a).toNat : Int)) := by omega
  rw [flVal60, fl60_snd, hneg, zpow_neg, zpow_natCast, div_eq_mul_inv]

theorem fl60_exact (a : Nat) (hdvd : 60 ∣ a) (he : flExpo a ≤ 52) :
    flVal60 a = (a : ℚ) / 60 := by
  rw [flVal60_le52 a he, fl60_fst a he]
  obtain ⟨c, rfl⟩ := hdvd
  have hdvd' : (60 : Nat) ∣ 60 * c * 2 ^ (52 - flExpo (60 * c)).toNat :=
    ⟨c * 2 ^ (52 - flExpo (60 * c)).toNat, by ring⟩
  rw [rhe_exact _ _ (by norm_num) hdvd']
  have hq : 60 * c * 2 ^ (52 - flExpo (60 * c)).toNat / 60
      = c * 2 ^ (52 - flExpo (60 * c)).toNat := by
    rw [Nat.mul_assoc, Nat.mul_div_cancel_left _ (by norm_num : 0 < 60)]
  rw [hq]
  have h2 : ((2 : ℚ) ^ (52 - flExpo (60 * c)).toNat) ≠ 0 := by positivity
  push_cast
  field_simp

theorem fl60_close (a : Nat) (ha : 1 ≤ a) (hb : a < 60 * 2 ^ 48) :
    |flVal60 a - (a : ℚ) / 60| ≤ 1 / 64 := by
  have he := flExpo_le a ha hb
  have he52 : flExpo a ≤ 52 := by omega
  have hk5 : 5 ≤ (52 - flExpo a).toNat := by omega
  have h2k : (32 : ℚ) ≤ (2 : ℚ) ^ (52 - flExpo a).toNat := by
    calc (32 : ℚ) = 2 ^ (5 : ℕ) := by norm_num
      _ ≤ 2 ^ (52 - flExpo a).toNat := by
          exact pow_le_pow_right₀ (by norm_num) hk5
  have h2kpos : (0 : ℚ) < (2 : ℚ) ^ (52 - flExpo a).toNat := by positivity
  have h2ne : ((2 : ℚ) ^ (52 - flExpo a).toNat) ≠ 0 := ne_of_gt h2kpos
  have herr := rhe_err (a * 2 ^ (52 - flExpo a).toNat) 60 (by norm_num)
  have hxe : (a : ℚ) / 60
      = ((a * 2 ^ (52 - flExpo a).toNat : Nat) : ℚ) / 60 / (2 : ℚ) ^ (52 - flExpo a).toNat := by
    push_cast
    field_simp
    ring
  rw [flVal60_le52 a he52, fl60_fst a he52, hxe, div_sub_div_same, abs_div,
    abs_of_pos h2kpos]
  have step1 := (div_le_div_iff_of_pos_right h2kpos).mpr herr
  have step2 : ((1 : ℚ) / 2) / (2 : ℚ) ^ (52 - flExpo a).toNat ≤ (1 / 2) / 32 := by
    gcongr
  have e3 : ((1 : ℚ) / 2) / 32 = 1 / 64 := by norm_num
  linarith

theorem fl60_transfer (a : Nat) (ha : 1 ≤ a) (hb : a < 60 * 2 ^ 48) :
    ⌈flVal60 a⌉ = ⌈(a : ℚ) / 60⌉ ∧ ⌊flVal60 a⌋ = ⌊(a : ℚ) / 60⌋ := by
  have he := flExpo_le a ha hb
  by_cases hdvd : 60 ∣ a
  · rw [fl60_exact a hdvd (by omega)]
    exact ⟨rfl, rfl⟩
  · obtain ⟨hcl, hcu⟩ := abs_le.mp (fl60_close a ha hb)
    set qn : ℕ := a / 60 with hqn
    set rn : ℕ := a % 60 with hrn
    have hr1 : 1 ≤ rn := by
      rcases Nat.eq_zero_or_pos rn with h0 | h1
      · rw [hrn] at h0
        exact absurd (Nat.dvd_of_mod_eq_zero h0) hdvd
      · exact h1
    have hr59 : rn ≤ 59 := by
      rw [hrn]
      omega
    have hsplit : (a : ℚ) / 60 = (qn : ℚ) + (rn : ℚ) / 60 := by
      have hxn : ((a : ℚ)) = 60 * (qn : ℚ) + (rn : ℚ) := by
        rw [hqn, hrn]
        exact_mod_cast (Nat.div_add_mod a 60).symm
      rw [hxn]
      field_simp
      ring
    have hb1 : (1 : ℚ) / 60 ≤ (rn : ℚ) / 60 := by
      have : (1 : ℚ) ≤ (rn : ℚ) := by exact_mod_cast hr1
      linarith
    have hb2 : (rn : ℚ) / 60 ≤ 59 / 60 := by
      have : (rn : ℚ) ≤ 59 := by exact_mod_cast hr59
      linarith
    constructor
    · have hcv : ⌈flVal60 a⌉ = (qn : ℤ) + 1 := by
        rw [Int.ceil_eq_iff]
        constructor
        · push_cast
          linarith
        · push_cast
          linarith
      have hcx : ⌈(a : ℚ) / 60⌉ = (qn : ℤ) + 1 := by
        rw [Int.ceil_eq_iff]
        constructor
        · push_cast
          linarith
        · push_cast
          linarith
      rw [hcv, hcx]
    · have hfv : ⌊flVal60 a⌋ = (qn : ℤ) := by
        rw [Int.floor_eq_iff]
        constructor
        · push_cast
          linarith
        · push_cast
          linarith
      have hfx : ⌊(a : ℚ) / 60⌋ = (qn : ℤ) := by
        rw [Int.floor_eq_iff]
        constructor
        · push_cast
          linarith
        · push_cast
          linarith
      rw [hfv, hfx]

theorem intCeil_div_pow (m k : Nat) :
    -(-(m : Int) / (2 : Int) ^ k) = ⌈(m : ℚ) / (2 : ℚ) ^ k⌉ := by
  have h1 : (m : ℚ) / (2 : ℚ) ^ k = -(((-(m : Int) : Int) : ℚ) / ((2 ^ k : ℕ) : ℚ)) := by
    push_cast
    ring
  rw [h1, Int.ceil_neg, Rat.floor_intCast_div_natCast]
  push_cast
  rfl

theorem intFloor_div_pow (m k : Nat) :
    (m : Int) / (2 : Int) ^ k = ⌊(m : ℚ) / (2 : ℚ) ^ k⌋ := by
  have h1 : (m : ℚ) / (2 : ℚ) ^ k = (((m : Int)) : ℚ) / ((2 ^ k : ℕ) : ℚ) := by
    push_cast
    ring
  rw [h1, Rat.floor_intCast_div_natCast]
  push_cast
  rfl

/-- In the exact regime `|s| < 60 * 2^48` the float ceiling of `s / 60`
computed by the program equals the mathematical ceiling, and no overflow
occurs. -/
theorem pyCeilDiv60_exact (s : Int) (hb : s.natAbs < 60 * 2 ^ 48) :
    pyCeilDiv60 s = some ⌈(s : ℚ) / 60⌉ := by
  by_cases hs0 : s = 0
  · subst hs0
    rw [pyCeilDiv60, if_pos rfl]
    simp
  · have ha : 1 ≤ s.natAbs := by omega
    have he : flExpo s.natAbs ≤ 47 := flExpo_le s.natAbs ha hb
    have hsnd := fl60_snd s.natAbs
    have hne52 : ¬(52 ≤ (fl60 s.natAbs).2) := by omega
    have htrans := fl60_transfer s.natAbs ha hb
    simp only [pyCeilDiv60]
    rw [if_neg hs0, if_neg (fun hcon => hne52 hcon.1)]
    by_cases hpos : 0 < s
    · rw [if_pos hpos, if_neg hne52]
      congr 1
      rw [hsnd, intCeil_div_pow, ← flVal60_le52 s.natAbs (by omega), htrans.1]
      have hcast : ((s.natAbs : ℕ) : ℚ) = (s : ℚ) := by
        rw [Int.cast_natAbs]
        exact_mod_cast abs_of_pos hpos
      rw [hcast]
    · rw [if_neg hpos, if_neg hne52]
      congr 1
      rw [hsnd, intFloor_div_pow, ← flVal60_le52 s.natAbs (by omega), htrans.2]
      have hneg : s < 0 := by omega
      have hcast : ((s.natAbs : ℕ) : ℚ) = -(s : ℚ) := by
        rw [Int.cast_natAbs]
        exact_mod_cast abs_of_neg hneg
      rw [hcast, show -(s : ℚ) / 60 = -((s : ℚ) / 60) from by ring, Int.floor_neg, neg_neg]

/-- C2 counterexample: the plain integer-seconds text `"540431955284459580"`
(sixty times `2^53 + 1`) has exact quotient `2^53 + 1`, an odd integer above
`2^53` that binary64 division rounds down to `2^53` (ties to even), so
`round_up_duration_minutes` returns one less than `ceil(n/60)` claimed for
every integer string. -/
theorem c2_float_rounding_counterexample :
    round_up_duration_minutes "540431955284459580" = 9007199254740992 ∧
    round_up_duration_minutes "540431955284459580" ≠ ⌈(540431955284459580 : ℚ) / 60⌉ := by
  have h1 : round_up_duration_minutes "540431955284459580" = 9007199254740992 := by decide
  have h2 : ⌈(540431955284459580 : ℚ) / 60⌉ = 9007199254740993 := by
    rw [Int.ceil_eq_iff]
    norm_num
  refine ⟨h1, ?_⟩
  rw [h1, h2]
  decide

/-- C2 (amended): a duration text of the form `h:m:s` with integer components
and `0 ≤ m, s < 60` yields `h*60 + m + ceil(s/60)` rounded minutes and
`h*3600 + m*60 + s` exact seconds; a plain integer-seconds text `n` with
`|n| < 60 * 2^48` — the range in which the float division `n / 60` still has
the exact ceiling — yields `ceil(n/60)` rounded minutes and `n` exact
seconds. -/
theorem c2_duration_normalization_amended (t : String) (h m s n : Int) :
    ((':' ∈ t.toList) → parseHMS t.toList = some (h, m, s) →
      0 ≤ m → m < 60 → 0 ≤ s → s < 60 →
      round_up_duration_minutes t = h * 60 + m + ⌈(s : ℚ) / 60⌉ ∧
      round_up_duration_seconds t = h * 3600 + m * 60 + s) ∧
    ((':' ∉ t.toList) → pyInt t.toList = some n → n.natAbs < 60 * 2 ^ 48 →
      round_up_duration_minutes t = ⌈(n : ℚ) / 60⌉ ∧
      round_up_duration_seconds t = n) := by
  have h60 : (60 : ℕ) ≤ 60 * 2 ^ 48 := by norm_num
  constructor
  · intro hc hp _ _ hs0 hs60
    constructor
    · rw [round_up_duration_minutes]
      rw [if_pos hc, hp]
      show (match pyCeilDiv60 s with
            | some c => h * 60 + m + c
            | none => 0) = h * 60 + m + ⌈(s : ℚ) / 60⌉
      rw [pyCeilDiv60_exact s (lt_of_lt_of_le (by omega) h60)]
    · rw [round_up_duration_seconds]
      rw [if_pos hc, hp]
  · intro hc hp hbnd
    constructor
    · rw [round_up_duration_minutes]
      rw [if_neg hc, hp]
      show (match pyCeilDiv60 n with
            | some c => c
            | none => 0) = ⌈(n : ℚ) / 60⌉
      rw [pyCeilDiv60_exact n hbnd]
    · rw [round_up_duration_seconds]
      rw [if_neg hc, hp]

/-- Witness for C2 (amended) at the spec's own examples: `"0:01:30" → (2, 90)`
and `"125" → (3, 125)`. -/
theorem c2_duration_normalization_amended_witness :
    round_up_duration_minutes "0:01:30" = 2 ∧ round_up_duration_seconds "0:01:30" = 90 ∧
    round_up_duration_minutes "125" = 3 ∧ round_up_duration_seconds "125" = 125 := by
  have h1 := (c2_duration_normalization_amended "0:01:30" 0 1 30 0).1 (by decide) (by decide)
    (by decide) (by decide) (by decide) (by decide)
  have h2 := (c2_duration_normalization_amended "125" 0 0 0 125).2 (by decide) (by decide)
    (by decide)
  have e1 : ⌈(((30 : Int)) : ℚ) / 60⌉ = (1 : Int) := by
    rw [Int.ceil_eq_iff]
    norm_num
  have e2 : ⌈(((125 : Int)) : ℚ) / 60⌉ = (3 : Int) := by
    rw [Int.ceil_eq_iff]
    norm_num
  refine ⟨?_, ?_, ?_, ?_⟩
  · rw [h1.1, e1]; norm_num
  · rw [h1.2]; norm_num
  · rw [h2.1, e2]
  · exact h2.2

/-- C6: a malformed duration text (one whose parse raises in Python: wrong
arity of the colon split or a non-numeric component) makes both
`round_up_duration_minutes` and `round_up_duration_seconds` return `0`, the
embedded catch-all branch, instead of propagating an exception. -/
theorem c6_malformed_duration (t : String)
    (hbad : (':' ∈ t.toList ∧ parseHMS t.toList = none) ∨
            (':' ∉ t.toList ∧ pyInt t.toList = none)) :
    round_up_duration_minutes t = 0 ∧ round_up_duration_seconds t = 0 := by
  rcases hbad with ⟨hc, hp⟩ | ⟨hc, hp⟩
  · constructor
    · rw [round_up_duration_minutes, if_pos hc, hp]
    · rw [round_up_duration_seconds, if_pos hc, hp]
  · constructor
    · rw [round_up_duration_minutes, if_neg hc, hp]
    · rw [round_up_duration_seconds, if_neg hc, hp]

/-- Witness for C6 at `"abc"` (non-numeric) and `"1:30"` (wrong arity). -/
theorem c6_malformed_duration_witness :
    (round_up_duration_minutes "abc" = 0 ∧ round_up_duration_seconds "abc" = 0) ∧
    (round_up_duration_minutes "1:30" = 0 ∧ round_up_duration_seconds "1:30" = 0) :=
  ⟨c6_malformed_duration "abc" (Or.inr ⟨by decide, by decide⟩),
   c6_malformed_duration "1:30" (Or.inl ⟨by decide, by decide⟩)⟩

/-- The text `"1"` followed by four hundred zeros: a well-formed plain
integer-seconds duration of `10^400` seconds. -/
def bigT : String := ⟨'1' :: List.replicate 400 '0'⟩

/-- C10 counterexample: on `bigT` the minutes path divides `10^400` by 60 in
float arithmetic, overflows, and the caught OverflowError yields `0`, while
the seconds path computes `10^400` in exact integer arithmetic — the claimed
identity `minutes = ceil(seconds / 60)` fails. -/
theorem c10_overflow_counterexample :
    round_up_duration_minutes bigT = 0 ∧
    round_up_duration_seconds bigT = 10 ^ 400 ∧
    round_up_duration_minutes bigT ≠ ⌈(round_up_duration_seconds bigT : ℚ) / 60⌉ := by
  have h1 : round_up_duration_minutes bigT = 0 := by decide
  have h2 : round_up_duration_seconds bigT = 10 ^ 400 := by decide
  refine ⟨h1, h2, ?_⟩
  rw [h1, h2]
  have hlt : (0 : Int) < ⌈(((10 : Int) ^ 400 : Int) : ℚ) / 60⌉ := by
    rw [Int.lt_ceil]
    push_cast
    positivity
  omega

/-- C10 (amended): the rounded-minute measure equals the ceiling of the
exact-second measure divided by 60 on every malformed input and on every
well-formed input whose divided component (`s` of `h:m:s`, or the plain
seconds value `n`) has magnitude below `60 * 2^48`; beyond that range the
float division in the minutes path rounds differently or overflows to the
caught-exception value `0`, while the seconds path stays exact. -/
theorem c10_duration_consistency_amended (t : String) :
    ((':' ∈ t.toList) → ∀ h m s : Int, parseHMS t.toList = some (h, m, s) →
      s.natAbs < 60 * 2 ^ 48 →
      round_up_duration_minutes t = ⌈(round_up_duration_seconds t : ℚ) / 60⌉) ∧
    ((':' ∈ t.toList) → parseHMS t.toList = none →
      round_up_duration_minutes t = ⌈(round_up_duration_seconds t : ℚ) / 60⌉) ∧
    ((':' ∉ t.toList) → ∀ n : Int, pyInt t.toList = some n → n.natAbs < 60 * 2 ^ 48 →
      round_up_duration_minutes t = ⌈(round_up_duration_seconds t : ℚ) / 60⌉) ∧
    ((':' ∉ t.toList) → pyInt t.toList = none →
      round_up_duration_minutes t = ⌈(round_up_duration_seconds t : ℚ) / 60⌉) := by
  refine ⟨?_, ?_, ?_, ?_⟩
  · intro hc h m s hp hbnd
    rw [round_up_duration_minutes, round_up_duration_seconds, if_pos hc, if_pos hc, hp]
    show (match pyCeilDiv60 s with
          | some c => h * 60 + m + c
          | none => 0) = ⌈((h * 3600 + m * 60 + s : Int) : ℚ) / 60⌉
    rw [pyCeilDiv60_exact s hbnd]
    show h * 60 + m + ⌈(s : ℚ) / 60⌉ = ⌈((h * 3600 + m * 60 + s : Int) : ℚ) / 60⌉
    have hsplit : ((h * 3600 + m * 60 + s : Int) : ℚ) / 60
        = (s : ℚ) / 60 + ((h * 60 + m : Int) : ℚ) := by
      push_cast
      ring
    rw [hsplit, Int.ceil_add_int]
    ring
  · intro hc hp
    rw [round_up_duration_minutes, round_up_duration_seconds, if_pos hc, if_pos hc, hp]
    norm_num
  · intro hc n hp hbnd
    rw [round_up_duration_minutes, round_up_duration_seconds, if_neg hc, if_neg hc, hp]
    show (match pyCeilDiv60 n with
          | some c => c
          | none => 0) = ⌈((n : Int) : ℚ) / 60⌉
    rw [pyCeilDiv60_exact n hbnd]
  · intro hc hp
    rw [round_up_duration_minutes, round_up_duration_seconds, if_neg hc, if_neg hc, hp]
    norm_num

/-- Witness for C10 (amended) at a well-formed `h:m:s` input, a plain-seconds
input and a malformed input. -/
theorem c10_duration_consistency_amended_witness :
    (round_up_duration_minutes "0:01:30" = ⌈(round_up_duration_seconds "0:01:30" : ℚ) / 60⌉) ∧
    (round_up_duration_minutes "125" = ⌈(round_up_duration_seconds "125" : ℚ) / 60⌉) ∧
    (round_up_duration_minutes "abc" = ⌈(round_up_duration_seconds "abc" : ℚ) / 60⌉) := by
  refine ⟨?_, ?_, ?_⟩
  · exact (c10_duration_consistency_amended "0:01:30").1 (by decide) 0 1 30 (by decide) (by decide)
  · exact (c10_duration_consistency_amended "125").2.2.1 (by decide) 125 (by decide) (by decide)
  · exact (c10_duration_consistency_amended "abc").2.2.2 (by decide) (by decide)

/-- C1: when the incoming row's identity hash key is already present, the
upsert of `process_dashboard_csv` overwrites only `user_name` and `call_memo`
of the existing record from the row; every other field is unchanged, no entry
at another key changes, and no new entry is added. -/
theorem c1_merge_updates_only_annotations (config : Files) (call_details : Store) (row : Row)
    (old : CallDetail)
    (hfound : lookupKey (buildCallDetail config row).hash_key call_details = some old) :
    (processRow config call_details row).length = call_details.length ∧
    lookupKey (buildCallDetail config row).hash_key (processRow config call_details row) =
      some { old with user_name := rowGet row "User name",
                      call_memo := rowGet row "Call memo" } ∧
    ∀ k, k ≠ (buildCallDetail config row).hash_key →
      lookupKey k (processRow config call_details row) = lookupKey k call_details := by
  have hc : containsKey (buildCallDetail config row).hash_key call_details = true := by
    rw [containsKey, hfound]
    rfl
  simp only [processRow]
  rw [if_pos hc]
  refine ⟨length_updateFirst _ _ _, ?_, ?_⟩
  · rw [lookupKey_updateFirst_self, hfound]
    rfl
  · intro k hk
    exact lookupKey_updateFirst_ne _ k _ _ hk

/-- Witness for C1: a store already holding the sample key with stale
annotations and a different charge; the upsert replaces only the
annotations. -/
theorem c1_merge_updates_only_annotations_witness :
    (processRow cfgA storeA rowA).length = storeA.length ∧
    lookupKey (buildCallDetail cfgA rowA).hash_key (processRow cfgA storeA rowA) =
      some { oldA with user_name := rowGet rowA "User name",
                       call_memo := rowGet rowA "Call memo" } := by
  have h := c1_merge_updates_only_annotations cfgA storeA rowA oldA (by decide)
  exact ⟨h.1, h.2.1⟩

/-- C9: upserting the same raw row twice yields the same store as upserting
it once — sizes and every field of every entry are unchanged by the second
upsert. -/
theorem c9_upsert_idempotent (config : Files) (call_details : Store) (row : Row) :
    processRow config (processRow config call_details row) row =
      processRow config call_details row := by
  simp only [processRow]
  by_cases hc : containsKey (buildCallDetail config row).hash_key call_details = true
  · rw [if_pos hc]
    have hc2 : containsKey (buildCallDetail config row).hash_key
        (updateFirst (buildCallDetail config row).hash_key
          (fun existing =>
            { existing with user_name := rowGet row "User name",
                            call_memo := rowGet row "Call memo" }) call_details) = true := by
      rw [containsKey_updateFirst]
      exact hc
    rw [if_pos hc2]
    exact updateFirst_updateFirst (buildCallDetail config row).hash_key
      (fun existing =>
        { existing with user_name := rowGet row "User name",
                        call_memo := rowGet row "Call memo" })
      (fun x => rfl) call_details
  · rw [if_neg hc]
    have hcf : containsKey (buildCallDetail config row).hash_key call_details = false := by
      cases h' : containsKey (buildCallDetail config row).hash_key call_details
      · rfl
      · exact absurd h' hc
    rw [if_pos (containsKey_append_self _ _ _)]
    rw [updateFirst_append_notin _ _ _ _ hcf]
    rfl

/-- C3: the rated record's charge is `rate * roundedMinutes` under a
per-minute tier and `rate * exactSeconds` under a per-second tier, and `0`
whenever the call is not chargeable, regardless of duration. -/
theorem c3_charge_arithmetic (config : Files)
    (seq un cf cto cty ds da de rt dur memo : String) :
    ((mkCallDetail config seq un cf cto cty ds da de rt dur memo).chargeable = false →
      (mkCallDetail config seq un cf cto cty ds da de rt dur memo).charge = 0) ∧
    ((mkCallDetail config seq un cf cto cty ds da de rt dur memo).chargeable = true →
      ((resolveTier config cf cto).rate_type = RateType.per_minute →
        (mkCallDetail config seq un cf cto cty ds da de rt dur memo).charge =
          (resolveTier config cf cto).rate * (round_up_duration_minutes dur : ℚ)) ∧
      ((resolveTier config cf cto).rate_type = RateType.per_second →
        (mkCallDetail config seq un cf cto cty ds da de rt dur memo).charge =
          (resolveTier config cf cto).rate * (round_up_duration_seconds dur : ℚ))) := by
  constructor
  · intro h
    simp only [mkCallDetail] at h ⊢
    rw [if_neg (by rw [h]; exact Bool.false_ne_true)]
  · intro h
    simp only [mkCallDetail] at h ⊢
    constructor
    · intro hrt
      rw [if_pos h, hrt]
    · intro hrt
      rw [if_pos h, hrt]

/-- Witness for C3 at the spec's example: rate 10, duration `0:02:05` —
per-minute charge 30, per-second charge 1250. -/
theorem c3_charge_arithmetic_witness :
    (mkCallDetail cfgA "1" "u" "a" "b" "outbound call" "" "" "" "" "0:02:05" "").charge = 30 ∧
    (mkCallDetail cfgS "1" "u" "a" "b" "outbound call" "" "" "" "" "0:02:05" "").charge = 1250 := by
  have h1 := ((c3_charge_arithmetic cfgA "1" "u" "a" "b" "outbound call"
    "" "" "" "" "0:02:05" "").2 (by decide)).1 (by decide)
  have h2 := ((c3_charge_arithmetic cfgS "1" "u" "a" "b" "outbound call"
    "" "" "" "" "0:02:05" "").2 (by decide)).2 (by decide)
  constructor
  · rw [h1]
    have hm : round_up_duration_minutes "0:02:05" = 3 := by decide
    have hr : (resolveTier cfgA "a" "b").rate = 10 := rfl
    rw [hm, hr]
    norm_num
  · rw [h2]
    have hs : round_up_duration_seconds "0:02:05" = 125 := by decide
    have hr : (resolveTier cfgS "a" "b").rate = 10 := rfl
    rw [hs, hr]
    norm_num

/-- C4: rate resolution follows the total precedence order
number1 > number2 > s2c > default: a matching number1 wins outright; number2
applies only when number1 does not match; s2c only when neither does; the
default tier is returned exactly when no override matches. -/
theorem c4_precedence (config : Files) (cf cto : String) :
    (∀ sn, config.number1 = some sn → numberMatches sn.number cf cto = true →
      resolveTier config cf cto = sn.tier) ∧
    (optMatches config.number1 cf cto = false →
      ∀ sn, config.number2 = some sn → numberMatches sn.number cf cto = true →
        resolveTier config cf cto = sn.tier) ∧
    (optMatches config.number1 cf cto = false → optMatches config.number2 cf cto = false →
      ∀ sn, config.s2c = some sn → numberMatches sn.number cf cto = true →
        resolveTier config cf cto = sn.tier) ∧
    (optMatches config.number1 cf cto = false → optMatches config.number2 cf cto = false →
      optMatches config.s2c cf cto = false →
      resolveTier config cf cto = config.defaultTier) := by
  refine ⟨?_, ?_, ?_, ?_⟩
  · intro sn hsn hm
    exact resolveTier_hit1 config cf cto sn hsn hm
  · intro h1 sn hsn hm
    rw [resolveTier_skip1 config cf cto h1]
    exact resolveNumber2_hit config cf cto sn hsn hm
  · intro h1 h2 sn hsn hm
    rw [resolveTier_skip1 config cf cto h1, resolveNumber2_skip config cf cto h2]
    exact resolveS2C_hit config cf cto sn hsn hm
  · intro h1 h2 h3
    rw [resolveTier_skip1 config cf cto h1, resolveNumber2_skip config cf cto h2]
    exact resolveS2C_skip config cf cto h3

/-- Witness for C4: under `cfgP` the call to `0811` matches both number1 and
S2C, and resolution returns number1's tier (rate 5, not the S2C rate 7). -/
theorem c4_precedence_witness :
    resolveTier cfgP "0999" "0811" = snP.tier ∧ snP.tier.rate = 5 ∧ snS.tier.rate = 7 := by
  refine ⟨(c4_precedence cfgP "0999" "0811").1 snP rfl (by decide), by decide, by decide⟩

/-- C5: a call whose type is outside the resolved tier's chargeable set is
rated with charge 0 and chargeable false regardless of rate and duration, yet
is still stored and serialized to an output row rather than dropped. -/
theorem c5_nonchargeable_not_dropped (config : Files) (call_details : Store) (row : Row)
    (htype : (resolveTier config (rowGet row "Call from")
        (rowGet row "Call to")).chargeable_call_types.contains (rowGet row "Call type") = false) :
    (buildCallDetail config row).charge = 0 ∧
    (buildCallDetail config row).chargeable = false ∧
    containsKey (buildCallDetail config row).hash_key (processRow config call_details row) = true ∧
    ∃ d, lookupKey (buildCallDetail config row).hash_key (processRow config call_details row) =
        some d ∧
      outputRow d ∈ save_merged_csv (processRow config call_details row) := by
  refine ⟨?_, ?_, containsKey_processRow config call_details row, ?_⟩
  · simp only [buildCallDetail, mkCallDetail]
    rw [if_neg (by rw [htype]; exact Bool.false_ne_true)]
  · simp only [buildCallDetail, mkCallDetail]
    exact htype
  · have hck := containsKey_processRow config call_details row
    rw [containsKey] at hck
    obtain ⟨d, hd⟩ := Option.isSome_iff_exists.mp hck
    refine ⟨d, hd, ?_⟩
    rw [save_merged_csv_eq_map]
    exact List.mem_map.mpr ⟨_, lookupKey_mem _ _ _ hd, rfl⟩

/-- Witness for C5: a high default rate, a ten-minute call of an unrecognized
type — charge 0, chargeable false. -/
theorem c5_nonchargeable_not_dropped_witness :
    (buildCallDetail cfgW rowW).charge = 0 ∧ (buildCallDetail cfgW rowW).chargeable = false := by
  have h := c5_nonchargeable_not_dropped cfgW [] rowW (by decide)
  exact ⟨h.1, h.2.1⟩

/-- C7 counterexample: a row missing every required raw field (the empty row)
is not skipped by `process_dashboard_csv`: it contributes an entry to an
initially empty store. -/
theorem c7_counterexample_row_not_skipped :
    (process_dashboard_csv cfgA [[]] []).length = 1 := by decide

/-- C7 (amended): a row missing a required raw field is not skipped and no
diagnostic exists; each missing field is read as the empty string and the row
is processed like any other, contributing a new entry whenever its identity
key is not already present. -/
theorem c7_missing_field_defaults (config : Files) (call_details : Store) (row : Row)
    (hmiss : row.find? (fun p => p.1 == "Call duration") = none)
    (hnew : containsKey (buildCallDetail config row).hash_key call_details = false) :
    (buildCallDetail config row).call_duration = "" ∧
    (processRow config call_details row).length = call_details.length + 1 ∧
    lookupKey (buildCallDetail config row).hash_key (processRow config call_details row) =
      some (buildCallDetail config row) := by
  have hng : ¬containsKey (buildCallDetail config row).hash_key call_details = true := by
    rw [hnew]
    exact Bool.false_ne_true
  refine ⟨?_, ?_, ?_⟩
  · simp only [buildCallDetail, mkCallDetail, rowGet, hmiss]
  · simp only [processRow]
    rw [if_neg hng, List.length_append]
    rfl
  · simp only [processRow]
    rw [if_neg hng]
    exact lookupKey_append_self _ _ _ hnew

/-- Witness for C7 (amended) at the empty row and empty store. -/
theorem c7_missing_field_defaults_witness :
    (buildCallDetail cfgA []).call_duration = "" ∧
    (processRow cfgA [] []).length = 1 := by
  have h := c7_missing_field_defaults cfgA [] [] (by decide) (by decide)
  exact ⟨h.1, h.2.1⟩

/-- C8: serialization produces exactly one output row per stored record, in
store (insertion) order, omitting none, and every output row carries the two
columns named exactly "Round up duration (minutes)" and
"Round up duration (seconds)". -/
theorem c8_serialization_complete (call_details : Store) :
    save_merged_csv call_details = call_details.map (fun p => outputRow p.2) ∧
    (save_merged_csv call_details).length = call_details.length ∧
    ∀ r ∈ save_merged_csv call_details,
      (∃ v, ("Round up duration (minutes)", v) ∈ r) ∧
      (∃ v, ("Round up duration (seconds)", v) ∈ r) := by
  refine ⟨save_merged_csv_eq_map _, ?_, ?_⟩
  · rw [save_merged_csv_eq_map, List.length_map]
  · intro r hr
    rw [save_merged_csv_eq_map] at hr
    obtain ⟨p, _, rfl⟩ := List.mem_map.mp hr
    constructor
    · refine ⟨toString (round_up_duration_minutes (dictGet p.2.to_dict "Call duration")), ?_⟩
      rw [outputRow]
      exact List.mem_append.mpr (Or.inr (by simp))
    · refine ⟨toString (round_up_duration_seconds (dictGet p.2.to_dict "Call duration")), ?_⟩
      rw [outputRow]
      exact List.mem_append.mpr (Or.inr (by simp))

/-- Witness for C8 at a one-record store. -/
theorem c8_serialization_complete_witness :
    (save_merged_csv [(detailA.hash_key, detailA)]).length = 1 ∧
    (∃ v, ("Round up duration (minutes)", v) ∈ outputRow detailA) := by
  have h := c8_serialization_complete [(detailA.hash_key, detailA)]
  refine ⟨by rw [h.2.1]; rfl, ?_⟩
  exact (h.2.2 (outputRow detailA) (by rw [h.1]; simp)).1

end AutoAnna
